import Mathlib

/-!
Shallow embedding of `camoco/Ontology.py`.

The store state is the pair of relations created by `Ontology._create_tables`:
`terms(id TEXT UNIQUE, desc TEXT)` and `term_loci(term TEXT, id TEXT)`, each a
list of rows in insertion order.  The `Term`, `Locus` and `RefGen` classes and
the `Camoco`/apsw transactional backend are collaborators whose sources are not
part of the analysed code; they are modelled from the design document where a
definition needs them (each such definition says so in its doc comment).
Scipy's `hypergeom.sf` is an external collaborator and enters as an
uninterpreted parameter producing exact rationals.
-/

/-- Error taxonomy of the design (spec section 7); failures raised by the
Python code are mapped onto these names. -/
inductive OntologyError where
  | duplicateTermError
  | notFoundError
  | transactionError
  | configurationError
deriving DecidableEq

/-- Modelled from the spec: a Locus is a genomic feature carrying its
identifier (the `Locus` class is not part of the analysed source; the spec
treats a locus as an identifier resolved through a reference-genome context). -/
structure Locus where
  id : String
deriving DecidableEq

/-- Modelled from the spec: the Term value object (the `Term` class is not part
of the analysed source): an id, a description, an ordered collection of loci,
and an attribute bag for derived data such as the computed p-value.  Attribute
values are exact rationals here, standing for the floats of the original. -/
structure Term where
  id : String
  desc : String
  loci : List Locus
  attrs : List (String × ℚ)
deriving DecidableEq

/-- State of the two relations built by `Ontology._create_tables`. -/
structure OntologyDB where
  terms : List (String × String)
  term_loci : List (String × String)
deriving DecidableEq

/-- Embeds `Ontology.__len__`: SELECT COUNT(*) FROM terms. -/
def lenOntology (db : OntologyDB) : Nat := db.terms.length

/-- Embeds `Ontology.del_term`: DELETE FROM term_loci WHERE term = id and
DELETE FROM terms WHERE id = id; a no-op when the id is absent. -/
def del_term (i : String) (db : OntologyDB) : OntologyDB :=
  { terms := db.terms.filter (fun r => !(r.1 == i)),
    term_loci := db.term_loci.filter (fun r => !(r.1 == i)) }

/-- Modelled from the spec: single-locus resolution (`RefGen.__getitem__` is
not part of the analysed source; per the spec a single lookup fails on an
unknown id, here `none`).  This resolves a list of locus ids left to right,
failing at the first unknown id, as the list comprehension in
`Ontology.__getitem__` does. -/
def resolveList (resolve : String → Option Locus) : List String → Option (List Locus)
  | [] => some []
  | i :: is =>
    match resolve i with
    | none => none
    | some l =>
      match resolveList resolve is with
      | none => none
      | some ls => some (l :: ls)

/-- Embeds `Ontology.__getitem__`: fetch the first `terms` row with the given
id (`fetchone`), then resolve every associated locus id from `term_loci`.  A
missing row (the `TypeError` branch, commented "Not in database" in the
source) or an unresolvable locus id fails with `notFoundError`. -/
def getTerm (resolve : String → Option Locus) (db : OntologyDB) (i : String) :
    Except OntologyError Term :=
  match db.terms.find? (fun r => r.1 == i) with
  | none => .error .notFoundError
  | some r =>
    match resolveList resolve ((db.term_loci.filter (fun q => q.1 == r.1)).map Prod.snd) with
    | none => .error .notFoundError
    | some ls => .ok { id := r.1, desc := r.2, loci := ls, attrs := [] }

/-- Embeds `Ontology.num_distinct_loci`: SELECT COUNT(DISTINCT(id)) FROM term_loci. -/
def num_distinct_loci (db : OntologyDB) : Nat :=
  ((db.term_loci.map Prod.snd).dedup).length

/-- The SQL statements `add_term` issues inside its transaction, plus an
injected backend failure used to model the interrupted-write scenario of the
spec. -/
inductive SqlOp where
  | insertTerm (id desc : String)
  | insertTermLocus (term id : String)
  | fail

/-- Effect of one statement: INSERT OR ABORT INTO terms aborts on the UNIQUE
id constraint (`duplicateTermError`); INSERT OR ABORT INTO term_loci carries
no constraint and always succeeds; an injected backend failure aborts with
`transactionError`. -/
def applyOp : SqlOp → OntologyDB → Except OntologyError OntologyDB
  | .insertTerm i d, db =>
    if db.terms.any (fun r => r.1 == i) then .error .duplicateTermError
    else .ok { db with terms := db.terms ++ [(i, d)] }
  | .insertTermLocus t i, db => .ok { db with term_loci := db.term_loci ++ [(t, i)] }
  | .fail, _ => .error .transactionError

/-- Run statements in order, stopping at the first failure. -/
def runOps : List SqlOp → OntologyDB → Except OntologyError OntologyDB
  | [], db => .ok db
  | op :: ops, db =>
    match applyOp op db with
    | .error e => .error e
    | .ok db' => runOps ops db'

/-- Modelled from the spec: transactional execution (the `Camoco`/apsw backend
is not part of the analysed source).  The statements between BEGIN TRANSACTION
and END TRANSACTION land atomically: per the spec's failure semantics, a
failed write leaves the store in the state it was in before the failing
transaction began. -/
def runTransaction (ops : List SqlOp) (db : OntologyDB) :
    OntologyDB × Option OntologyError :=
  match runOps ops db with
  | .ok db' => (db', none)
  | .error e => (db, some e)

/-- Embeds `Ontology.add_term` in its own-cursor form: an optional `del_term`
when `overwrite` is set (that delete commits in its own transaction), then one
transaction holding the descriptor insert followed by one association insert
per entry of `term.loci`. -/
def add_term (t : Term) (overwrite : Bool) (db : OntologyDB) :
    OntologyDB × Option OntologyError :=
  let db0 := if overwrite then del_term t.id db else db
  runTransaction
    (SqlOp.insertTerm t.id t.desc :: t.loci.map (fun l => SqlOp.insertTermLocus t.id l.id))
    db0

/-- Modelled from the spec: `add_term` interrupted by a simulated backend
failure after the descriptor insert but before the association inserts (the
spec's atomicity scenario); the never-committed transaction rolls back. -/
def add_term_interrupted (t : Term) (db : OntologyDB) :
    OntologyDB × Option OntologyError :=
  runTransaction [SqlOp.insertTerm t.id t.desc, SqlOp.fail] db

/-- The string literals of the IN clause that `enrichment` builds by joining
the input locus ids with a quote-comma-quote separator.  Joining the empty
list yields the empty string, so the formatted clause is a single empty
literal and matches association rows whose locus id is the empty string; for
a nonempty input of apostrophe-free ids the literal list is exactly the ids.
Ids containing apostrophes produce SQL this model does not cover, so the
enrichment theorems that need this clause assume apostrophe-free ids. -/
def inClauseIds (locus_list : List Locus) : List String :=
  if locus_list.isEmpty then [""] else locus_list.map Locus.id

/-- Candidate selection of `Ontology.enrichment`:
SELECT DISTINCT(term) FROM term_loci WHERE id IN (formatted id list). -/
def candidateTermIds (db : OntologyDB) (locus_list : List Locus) : List String :=
  ((db.term_loci.filter (fun r => (inClauseIds locus_list).contains r.2)).map Prod.fst).dedup

/-- Modelled from the spec: bulk resolution `RefGen.from_ids` (not part of the
analysed source; per the spec it silently drops unresolvable ids), viewed as
the set it returns. -/
def from_ids (resolve : String → Option Locus) (ids : List String) : Finset Locus :=
  (ids.filterMap resolve).toFinset

/-- Locus ids associated with one term: SELECT id FROM term_loci WHERE term = ?. -/
def termLociIds (db : OntologyDB) (tid : String) : List String :=
  (db.term_loci.filter (fun r => r.1 == tid)).map Prod.snd

/-- Resolved membership set of a term: the `term_genes` value in `enrichment`. -/
def resolvedMembership (resolve : String → Option Locus) (db : OntologyDB) (tid : String) :
    Finset Locus :=
  from_ids resolve (termLociIds db tid)

/-- Argument bundle handed to the hypergeometric survival function. -/
structure HGArgs where
  num_common : Nat
  num_universe : Nat
  num_in_term : Nat
  num_sampled : Nat
deriving DecidableEq

/-- The four arguments `enrichment` passes to `hypergeom.sf`, in source order:
the size of `term_genes.intersection(locus_list)` (elements of the input list
lying in the membership set, counted without repetition), the global
distinct-locus count, the membership size, and the raw input length. -/
def hypergeomArgs (db : OntologyDB) (term_genes : Finset Locus) (locus_list : List Locus) :
    HGArgs :=
  { num_common := ((locus_list.filter (fun l => decide (l ∈ term_genes))).dedup).length
    num_universe := num_distinct_loci db
    num_in_term := term_genes.card
    num_sampled := locus_list.length }

/-- Body of the per-term loop of `Ontology.enrichment`: skip the term when its
resolved membership exceeds `max_term_size`; otherwise compute the survival
value and keep the term, with the p-value attached to its attribute bag under
"pval", exactly when the value is at most `pval_cutoff`. -/
def testTerm (sf : Nat → Nat → Nat → Nat → ℚ) (resolve : String → Option Locus)
    (db : OntologyDB) (locus_list : List Locus) (pval_cutoff : ℚ) (max_term_size : ℤ)
    (term : Term) : Option Term :=
  let term_genes := resolvedMembership resolve db term.id
  if (term_genes.card : ℤ) > max_term_size then none
  else
    let a := hypergeomArgs db term_genes locus_list
    let pval := sf a.num_common a.num_universe a.num_in_term a.num_sampled
    if pval ≤ pval_cutoff then
      some { term with attrs := term.attrs ++ [("pval", pval)] }
    else none

/-- Materialisation of the candidate terms, the list comprehension
`[self[name] for name, in ...]` over the candidate query: the first failing
lookup aborts the whole call. -/
def getTerms (resolve : String → Option Locus) (db : OntologyDB) :
    List String → Except OntologyError (List Term)
  | [] => .ok []
  | i :: is =>
    match getTerm resolve db i with
    | .error e => .error e
    | .ok t =>
      match getTerms resolve db is with
      | .error e => .error e
      | .ok ts => .ok (t :: ts)

/-- Embeds `Ontology.enrichment`, with the hypergeometric survival function
`sf` (scipy, an external collaborator) as a parameter: materialise the
candidate terms, then filter them through the per-term test, preserving
candidate order. -/
def enrichment (sf : Nat → Nat → Nat → Nat → ℚ) (resolve : String → Option Locus)
    (db : OntologyDB) (locus_list : List Locus) (pval_cutoff : ℚ) (max_term_size : ℤ) :
    Except OntologyError (List Term) :=
  match getTerms resolve db (candidateTermIds db locus_list) with
  | .error e => .error e
  | .ok terms =>
    .ok (terms.filterMap (testTerm sf resolve db locus_list pval_cutoff max_term_size))

/-! Helper lemmas about the store operations. -/

lemma runOps_insertLoci (tid : String) (ls : List Locus) (d : OntologyDB) :
    runOps (ls.map (fun l => SqlOp.insertTermLocus tid l.id)) d =
      .ok { d with term_loci := d.term_loci ++ ls.map (fun l => (tid, l.id)) } := by
  induction ls generalizing d with
  | nil => simp [runOps]
  | cons l ls ih => simp [runOps, applyOp, ih]

lemma add_term_eq (t : Term) (ov : Bool) (db : OntologyDB) :
    add_term t ov db =
      (let db0 := if ov then del_term t.id db else db
       if db0.terms.any (fun r => r.1 == t.id) then (db0, some .duplicateTermError)
       else ({ db0 with
                terms := db0.terms ++ [(t.id, t.desc)],
                term_loci := db0.term_loci ++ t.loci.map (fun l => (t.id, l.id)) }, none)) := by
  by_cases hany : (if ov then del_term t.id db else db).terms.any (fun r => r.1 == t.id) <;>
    simp [add_term, runTransaction, runOps, applyOp, hany, runOps_insertLoci]

lemma getTerm_not_found (resolve : String → Option Locus) (db : OntologyDB) (i : String)
    (h : ∀ r ∈ db.terms, r.1 ≠ i) :
    getTerm resolve db i = .error .notFoundError := by
  have hf : db.terms.find? (fun r => r.1 == i) = none :=
    List.find?_eq_none.mpr (by simpa using h)
  simp [getTerm, hf]

lemma resolveList_map_id {resolve : String → Option Locus} :
    ∀ {ls : List Locus}, (∀ l ∈ ls, resolve l.id = some l) →
      resolveList resolve (ls.map Locus.id) = some ls := by
  intro ls
  induction ls with
  | nil => intro _; simp [resolveList]
  | cons l ls ih =>
    intro h
    simp only [List.map_cons, resolveList, h l (by simp),
      ih (fun x hx => h x (by simp [hx]))]

/-- C1: every term successfully inserted through `add_term` is returned by a
subsequent lookup of its id with the same id, the same description, and a
locus collection equal as a set to the inserted loci.  The resolver is assumed
to resolve each inserted locus id back to its locus, and (unless the insert
overwrote) the store holds no orphaned association rows under the new id. -/
theorem c1_round_trip (resolve : String → Option Locus) (t : Term) (ov : Bool)
    (db db1 : OntologyDB) (h : add_term t ov db = (db1, none))
    (hclean : ov = true ∨ ∀ r ∈ db.term_loci, r.1 ≠ t.id)
    (hres : ∀ l ∈ t.loci, resolve l.id = some l) :
    ∃ t', getTerm resolve db1 t.id = .ok t' ∧ t'.id = t.id ∧ t'.desc = t.desc ∧
      t'.loci.toFinset = t.loci.toFinset := by
  by_cases hany : (if ov then del_term t.id db else db).terms.any (fun r => r.1 == t.id) = true
  · rw [add_term_eq] at h
    simp [hany] at h
  · have hclean0 : ∀ q ∈ (if ov then del_term t.id db else db).term_loci, q.1 ≠ t.id := by
      intro q hq
      cases ov with
      | true =>
        simp [del_term, List.mem_filter] at hq
        exact hq.2
      | false =>
        simp at hq
        rcases hclean with hov | hcl
        · exact (Bool.false_ne_true hov).elim
        · exact hcl q hq
    rw [add_term_eq] at h
    simp only [hany, if_false] at h
    have hdb1 : ({ (if ov then del_term t.id db else db) with
        terms := (if ov then del_term t.id db else db).terms ++ [(t.id, t.desc)],
        term_loci := (if ov then del_term t.id db else db).term_loci ++
          t.loci.map (fun l => (t.id, l.id)) } : OntologyDB) = db1 :=
      congrArg Prod.fst h
    subst hdb1
    have hany' : ∀ r ∈ (if ov then del_term t.id db else db).terms, ¬(r.1 == t.id) = true := by
      intro r hr hbe
      exact hany (List.any_eq_true.mpr ⟨r, hr, hbe⟩)
    have hf0 : (if ov then del_term t.id db else db).terms.find? (fun r => r.1 == t.id) = none :=
      List.find?_eq_none.mpr hany'
    have hf : ((if ov then del_term t.id db else db).terms ++ [(t.id, t.desc)]).find?
        (fun r => r.1 == t.id) = some (t.id, t.desc) := by
      rw [List.find?_append, hf0]
      simp
    have hfilter : (((if ov then del_term t.id db else db).term_loci ++
        t.loci.map (fun l => (t.id, l.id))).filter (fun q => q.1 == t.id)) =
        t.loci.map (fun l => (t.id, l.id)) := by
      rw [List.filter_append]
      have h1 : (if ov then del_term t.id db else db).term_loci.filter
          (fun q => q.1 == t.id) = [] := by
        rw [List.filter_eq_nil_iff]
        intro q hq
        simpa using hclean0 q hq
      have h2 : (t.loci.map (fun l => (t.id, l.id))).filter (fun q => q.1 == t.id) =
          t.loci.map (fun l => (t.id, l.id)) := by
        rw [List.filter_eq_self]
        intro q hq
        simp only [List.mem_map] at hq
        obtain ⟨l, _, rfl⟩ := hq
        simp
      rw [h1, h2, List.nil_append]
    have hres' : resolveList resolve ((t.loci.map (fun l => (t.id, l.id))).map Prod.snd) =
        some t.loci := by
      rw [List.map_map]
      exact resolveList_map_id hres
    refine ⟨{ id := t.id, desc := t.desc, loci := t.loci, attrs := [] }, ?_, rfl, rfl, rfl⟩
    simp only [getTerm, hf, hfilter, hres']

/-- Witness for C1 at a concrete insert: the term "t1" with one locus "l1"
round-trips through an empty store. -/
theorem c1_round_trip_witness :
    add_term ⟨"t1", "d", [⟨"l1"⟩], []⟩ false ⟨[], []⟩ =
      (⟨[("t1", "d")], [("t1", "l1")]⟩, none) ∧
    (∀ l ∈ ([⟨"l1"⟩] : List Locus), (fun s => some (Locus.mk s)) l.id = some l) ∧
    ∃ t', getTerm (fun s => some (Locus.mk s)) ⟨[("t1", "d")], [("t1", "l1")]⟩ "t1" = .ok t' ∧
      t'.id = "t1" ∧ t'.desc = "d" ∧ t'.loci.toFinset = ([⟨"l1"⟩] : List Locus).toFinset := by
  refine ⟨by decide, by decide, ?_⟩
  exact c1_round_trip (fun s => some (Locus.mk s)) ⟨"t1", "d", [⟨"l1"⟩], []⟩ false ⟨[], []⟩
    ⟨[("t1", "d")], [("t1", "l1")]⟩ (by decide) (Or.inr (by decide)) (by decide)

/-- C2: after a successful `add_term`, a second `add_term` with the same id and
`overwrite = False` fails with `duplicateTermError`, and the failed call leaves
the store, in particular its term count, unchanged. -/
theorem c2_duplicate_add (t t2 : Term) (ov : Bool) (db db1 : OntologyDB)
    (h : add_term t ov db = (db1, none)) (hid : t2.id = t.id) :
    add_term t2 false db1 = (db1, some .duplicateTermError) ∧
    lenOntology (add_term t2 false db1).1 = lenOntology db1 := by
  by_cases hany : (if ov then del_term t.id db else db).terms.any (fun r => r.1 == t.id) = true
  · rw [add_term_eq] at h
    simp [hany] at h
  · rw [add_term_eq] at h
    simp only [hany, if_false] at h
    have hdb1 : ({ (if ov then del_term t.id db else db) with
        terms := (if ov then del_term t.id db else db).terms ++ [(t.id, t.desc)],
        term_loci := (if ov then del_term t.id db else db).term_loci ++
          t.loci.map (fun l => (t.id, l.id)) } : OntologyDB) = db1 :=
      congrArg Prod.fst h
    have hmem : (t.id, t.desc) ∈ db1.terms := by
      rw [← hdb1]
      simp
    have hany2 : db1.terms.any (fun r => r.1 == t2.id) = true :=
      List.any_eq_true.mpr ⟨(t.id, t.desc), hmem, by simp [hid]⟩
    have h2 : add_term t2 false db1 = (db1, some .duplicateTermError) := by
      rw [add_term_eq]
      simp [hany2]
    exact ⟨h2, by rw [h2]⟩

/-- Witness for C2 at a concrete store: inserting "t1" into the empty store
succeeds, and inserting a term with the same id again aborts with the
duplicate error, leaving the count at one. -/
theorem c2_duplicate_add_witness :
    add_term ⟨"t1", "d", [], []⟩ false ⟨[], []⟩ = (⟨[("t1", "d")], []⟩, none) ∧
    (add_term ⟨"t1", "e", [], []⟩ false ⟨[("t1", "d")], []⟩ =
      (⟨[("t1", "d")], []⟩, some .duplicateTermError) ∧
    lenOntology (add_term ⟨"t1", "e", [], []⟩ false ⟨[("t1", "d")], []⟩).1 =
      lenOntology ⟨[("t1", "d")], []⟩) := by
  refine ⟨by decide, ?_⟩
  exact c2_duplicate_add ⟨"t1", "d", [], []⟩ ⟨"t1", "e", [], []⟩ false ⟨[], []⟩
    ⟨[("t1", "d")], []⟩ (by decide) (by decide)

/-- C3: an `add_term` interrupted after the descriptor insert and before the
association inserts leaves no partial term: the transaction rolls back, the
store is exactly its pre-transaction state, and looking the id up afterwards
fails with `notFoundError`. -/
theorem c3_interrupted_add (resolve : String → Option Locus) (t : Term) (db : OntologyDB)
    (h : ∀ r ∈ db.terms, r.1 ≠ t.id) :
    add_term_interrupted t db = (db, some .transactionError) ∧
    getTerm resolve (add_term_interrupted t db).1 t.id = .error .notFoundError := by
  have hany : ¬db.terms.any (fun r => r.1 == t.id) = true := by
    intro hc
    obtain ⟨r, hr, hbe⟩ := List.any_eq_true.mp hc
    exact h r hr (by simpa using hbe)
  have h1 : add_term_interrupted t db = (db, some .transactionError) := by
    simp [add_term_interrupted, runTransaction, runOps, applyOp, hany]
  refine ⟨h1, ?_⟩
  rw [h1]
  exact getTerm_not_found resolve db t.id h

/-- Witness for C3 at a concrete store: interrupting the insert of "t1" into
the empty store rolls back and leaves the id unknown. -/
theorem c3_interrupted_add_witness :
    (∀ r ∈ (⟨[], []⟩ : OntologyDB).terms, r.1 ≠ "t1") ∧
    (add_term_interrupted ⟨"t1", "d", [⟨"l1"⟩], []⟩ ⟨[], []⟩ =
      (⟨[], []⟩, some .transactionError) ∧
    getTerm (fun s => some (Locus.mk s))
      (add_term_interrupted ⟨"t1", "d", [⟨"l1"⟩], []⟩ ⟨[], []⟩).1 "t1" =
      .error .notFoundError) := by
  refine ⟨by decide, ?_⟩
  exact c3_interrupted_add (fun s => some (Locus.mk s)) ⟨"t1", "d", [⟨"l1"⟩], []⟩ ⟨[], []⟩
    (by decide)

/-- C4: looking up an id that denotes no stored term fails with
`notFoundError`. -/
theorem c4_lookup_missing (resolve : String → Option Locus) (db : OntologyDB) (i : String)
    (h : ∀ r ∈ db.terms, r.1 ≠ i) :
    getTerm resolve db i = .error .notFoundError :=
  getTerm_not_found resolve db i h

/-- Witness for C4 at a concrete store holding only "t1": looking up "t2"
fails with `notFoundError`. -/
theorem c4_lookup_missing_witness :
    (∀ r ∈ (⟨[("t1", "d")], [("t1", "l1")]⟩ : OntologyDB).terms, r.1 ≠ "t2") ∧
    getTerm (fun s => some (Locus.mk s)) ⟨[("t1", "d")], [("t1", "l1")]⟩ "t2" =
      .error .notFoundError := by
  refine ⟨by decide, ?_⟩
  exact c4_lookup_missing (fun s => some (Locus.mk s)) ⟨[("t1", "d")], [("t1", "l1")]⟩ "t2"
    (by decide)

/-- C5: `num_distinct_loci` returns the number of distinct locus ids across
all stored association rows, so it is invariant between any two stores whose
association rows carry the same set of locus ids, in particular under
reordering and duplicated rows. -/
theorem c5_num_distinct_loci (db db' : OntologyDB) :
    num_distinct_loci db = (db.term_loci.map Prod.snd).toFinset.card ∧
    ((db.term_loci.map Prod.snd).toFinset = (db'.term_loci.map Prod.snd).toFinset →
      num_distinct_loci db = num_distinct_loci db') := by
  have key : ∀ d : OntologyDB, num_distinct_loci d = (d.term_loci.map Prod.snd).toFinset.card :=
    fun d => (List.card_toFinset _).symm
  exact ⟨key db, fun he => by rw [key db, key db', he]⟩

/-- Witness for C5 at two concrete stores with the same locus-id set reached
in different insertion orders and with a duplicated association row: both
counts equal two. -/
theorem c5_num_distinct_loci_witness :
    num_distinct_loci ⟨[], [("t1", "a"), ("t2", "b"), ("t1", "b")]⟩ =
      ((⟨[], [("t1", "a"), ("t2", "b"), ("t1", "b")]⟩ : OntologyDB).term_loci.map
        Prod.snd).toFinset.card ∧
    num_distinct_loci ⟨[], [("t1", "a"), ("t2", "b"), ("t1", "b")]⟩ =
      num_distinct_loci ⟨[], [("t3", "b"), ("t3", "a"), ("t3", "a")]⟩ := by
  refine ⟨(c5_num_distinct_loci ⟨[], [("t1", "a"), ("t2", "b"), ("t1", "b")]⟩
    ⟨[], [("t3", "b"), ("t3", "a"), ("t3", "a")]⟩).1, ?_⟩
  exact (c5_num_distinct_loci ⟨[], [("t1", "a"), ("t2", "b"), ("t1", "b")]⟩
    ⟨[], [("t3", "b"), ("t3", "a"), ("t3", "a")]⟩).2 (by decide)

/-! Helper lemmas about lookup and the enrichment loop. -/

lemma getTerm_ok_id {resolve : String → Option Locus} {db : OntologyDB} {i : String} {t : Term}
    (h : getTerm resolve db i = .ok t) : t.id = i := by
  unfold getTerm at h
  split at h
  · cases h
  · rename_i r hf
    split at h
    · cases h
    · cases h
      simpa using (List.find?_some hf).symm

lemma getTerm_error {resolve : String → Option Locus} {db : OntologyDB} {i : String}
    {e : OntologyError} (h : getTerm resolve db i = .error e) : e = .notFoundError := by
  unfold getTerm at h
  split at h
  · cases h
    rfl
  · split at h
    · cases h
      rfl
    · cases h

lemma getTerms_ok_mem {resolve : String → Option Locus} {db : OntologyDB} :
    ∀ {ids : List String} {ts : List Term} {t : Term},
      getTerms resolve db ids = .ok ts → t ∈ ts →
      ∃ i ∈ ids, getTerm resolve db i = .ok t := by
  intro ids
  induction ids with
  | nil =>
    intro ts t h ht
    unfold getTerms at h
    cases h
    cases ht
  | cons i is ih =>
    intro ts t h ht
    unfold getTerms at h
    split at h
    · cases h
    · rename_i t0 h0
      split at h
      · cases h
      · rename_i ts0 hts0
        cases h
        rcases List.mem_cons.mp ht with rfl | ht'
        · exact ⟨i, by simp, h0⟩
        · obtain ⟨j, hj, hg⟩ := ih hts0 ht'
          exact ⟨j, by simp [hj], hg⟩

lemma getTerms_error {resolve : String → Option Locus} {db : OntologyDB} :
    ∀ {ids : List String} {e : OntologyError},
      getTerms resolve db ids = .error e → e = .notFoundError := by
  intro ids
  induction ids with
  | nil =>
    intro e h
    unfold getTerms at h
    cases h
  | cons i is ih =>
    intro e h
    unfold getTerms at h
    split at h
    · rename_i h0
      cases h
      exact getTerm_error h0
    · split at h
      · rename_i hts
        cases h
        exact ih hts
      · cases h

lemma testTerm_some {sf : Nat → Nat → Nat → Nat → ℚ} {resolve : String → Option Locus}
    {db : OntologyDB} {ll : List Locus} {c : ℚ} {mts : ℤ} {term t : Term}
    (h : testTerm sf resolve db ll c mts term = some t) :
    t.id = term.id ∧ ((resolvedMembership resolve db term.id).card : ℤ) ≤ mts := by
  simp only [testTerm] at h
  split at h
  · cases h
  · rename_i hle
    split at h
    · cases h
      exact ⟨rfl, not_lt.mp hle⟩
    · cases h

lemma testTerm_mono {sf : Nat → Nat → Nat → Nat → ℚ} {resolve : String → Option Locus}
    {db : OntologyDB} {ll : List Locus} {mts : ℤ} {term t : Term} {c1 c2 : ℚ}
    (hc : c1 ≤ c2) (h : testTerm sf resolve db ll c1 mts term = some t) :
    testTerm sf resolve db ll c2 mts term = some t := by
  simp only [testTerm] at h ⊢
  split at h
  · cases h
  · rename_i hle
    rw [if_neg hle]
    split at h
    · rename_i hp
      cases h
      rw [if_pos (le_trans hp hc)]
    · cases h

/-- C6 as stated is violated by the formatted IN clause on an empty input:
joining an empty locus list produces the clause with one empty-string literal,
so a term associated to the empty-string locus id becomes a candidate and is
returned, although none of its associated locus ids appears in `locus_list`.
The survival-function value used, zero, is what scipy returns for drawing
zero items. -/
theorem c6_zero_overlap_counterexample :
    (∀ r ∈ (OntologyDB.mk [("T", "d")] [("T", "")]).term_loci,
        r.1 = "T" → r.2 ∉ ([] : List Locus).map Locus.id) ∧
    enrichment (fun _ _ _ _ => 0) (fun s => some (Locus.mk s))
        (OntologyDB.mk [("T", "d")] [("T", "")]) [] 1 300 =
      .ok [⟨"T", "d", [⟨""⟩], [("pval", 0)]⟩] := by
  constructor
  · decide
  · rfl

/-- C6 amended: provided `locus_list` is nonempty and no locus id in it
contains an apostrophe, a term none of whose associated locus ids appears in
`locus_list` is never selected as a candidate and never appears in the
returned sequence (every candidate id, and every returned term's id, has an
association row whose locus id occurs in the input). -/
theorem c6_zero_overlap_amended (sf : Nat → Nat → Nat → Nat → ℚ)
    (resolve : String → Option Locus) (db : OntologyDB) (ll : List Locus) (c : ℚ) (mts : ℤ)
    (res : List Term) (hne : ll ≠ [])
    (_hq : ∀ l ∈ ll, Char.ofNat 39 ∉ l.id.data)
    (hok : enrichment sf resolve db ll c mts = .ok res) :
    (∀ i ∈ candidateTermIds db ll, ∃ r ∈ db.term_loci, r.1 = i ∧ r.2 ∈ ll.map Locus.id) ∧
    (∀ t ∈ res, ∃ r ∈ db.term_loci, r.1 = t.id ∧ r.2 ∈ ll.map Locus.id) := by
  have hin : inClauseIds ll = ll.map Locus.id := by
    simp [inClauseIds, hne]
  have hcand : ∀ i ∈ candidateTermIds db ll,
      ∃ r ∈ db.term_loci, r.1 = i ∧ r.2 ∈ ll.map Locus.id := by
    intro i hi
    rw [candidateTermIds, List.mem_dedup] at hi
    obtain ⟨r, hr, hri⟩ := List.mem_map.mp hi
    rw [List.mem_filter] at hr
    refine ⟨r, hr.1, hri, ?_⟩
    have hc2 := hr.2
    rw [hin] at hc2
    simpa using hc2
  refine ⟨hcand, ?_⟩
  intro t ht
  unfold enrichment at hok
  split at hok
  · cases hok
  · rename_i ts hts
    cases hok
    obtain ⟨term, hterm, hsome⟩ := List.mem_filterMap.mp ht
    obtain ⟨i, hi, hg⟩ := getTerms_ok_mem hts hterm
    obtain ⟨r, hr, hr1, hr2⟩ := hcand i hi
    refine ⟨r, hr, ?_, hr2⟩
    rw [(testTerm_some hsome).1, getTerm_ok_id hg, hr1]

/-- Witness for the amended C6 at a concrete nonempty, apostrophe-free input:
the single candidate and the single returned term each carry an association
row whose locus id occurs in the input. -/
theorem c6_zero_overlap_witness :
    (([⟨"a"⟩] : List Locus) ≠ []) ∧
    (∀ l ∈ ([⟨"a"⟩] : List Locus), Char.ofNat 39 ∉ l.id.data) ∧
    ((∀ i ∈ candidateTermIds (OntologyDB.mk [("T", "d")] [("T", "a")]) [⟨"a"⟩],
        ∃ r ∈ (OntologyDB.mk [("T", "d")] [("T", "a")]).term_loci,
          r.1 = i ∧ r.2 ∈ ([⟨"a"⟩] : List Locus).map Locus.id) ∧
      (∀ t ∈ [(⟨"T", "d", [⟨"a"⟩], [("pval", 0)]⟩ : Term)],
        ∃ r ∈ (OntologyDB.mk [("T", "d")] [("T", "a")]).term_loci,
          r.1 = t.id ∧ r.2 ∈ ([⟨"a"⟩] : List Locus).map Locus.id)) := by
  refine ⟨by decide, by decide, ?_⟩
  exact c6_zero_overlap_amended (fun _ _ _ _ => 0) (fun s => some (Locus.mk s))
    (OntologyDB.mk [("T", "d")] [("T", "a")]) [⟨"a"⟩] 1 300
    [⟨"T", "d", [⟨"a"⟩], [("pval", 0)]⟩] (by decide) (by decide) rfl

/-- C7: a term whose resolved membership set is larger than `max_term_size`
never appears in the enrichment result, and its exclusion raises no error:
whether the call succeeds does not depend on `max_term_size` at all. -/
theorem c7_max_term_size_excluded (sf : Nat → Nat → Nat → Nat → ℚ)
    (resolve : String → Option Locus) (db : OntologyDB) (ll : List Locus) (c : ℚ)
    (mts : ℤ) (res : List Term) (hok : enrichment sf resolve db ll c mts = .ok res) :
    (∀ t ∈ res, ((resolvedMembership resolve db t.id).card : ℤ) ≤ mts) ∧
    (∀ mts' : ℤ, ∃ res', enrichment sf resolve db ll c mts' = .ok res') := by
  unfold enrichment at hok
  split at hok
  · cases hok
  · rename_i ts hts
    cases hok
    constructor
    · intro t ht
      obtain ⟨term, _, hsome⟩ := List.mem_filterMap.mp ht
      obtain ⟨hid, hcard⟩ := testTerm_some hsome
      rw [hid]
      exact hcard
    · intro mts'
      refine ⟨ts.filterMap (testTerm sf resolve db ll c mts'), ?_⟩
      unfold enrichment
      rw [hts]

/-- Witness for C7 at a concrete store: with the term "T" resolving to one
locus, every returned term has membership within the bound 300.  The skip
branch itself is exercised by the second conjunct at the bound zero, where the
call still succeeds. -/
theorem c7_max_term_size_excluded_witness :
    enrichment (fun _ _ _ _ => 0) (fun s => some (Locus.mk s))
        (OntologyDB.mk [("T", "d")] [("T", "a")]) [⟨"a"⟩] 1 300 =
      .ok [⟨"T", "d", [⟨"a"⟩], [("pval", 0)]⟩] ∧
    ((∀ t ∈ [(⟨"T", "d", [⟨"a"⟩], [("pval", 0)]⟩ : Term)],
        ((resolvedMembership (fun s => some (Locus.mk s))
          (OntologyDB.mk [("T", "d")] [("T", "a")]) t.id).card : ℤ) ≤ 300) ∧
      (∀ mts' : ℤ, ∃ res', enrichment (fun _ _ _ _ => 0) (fun s => some (Locus.mk s))
        (OntologyDB.mk [("T", "d")] [("T", "a")]) [⟨"a"⟩] 1 mts' = .ok res')) := by
  refine ⟨rfl, ?_⟩
  exact c7_max_term_size_excluded (fun _ _ _ _ => 0) (fun s => some (Locus.mk s))
    (OntologyDB.mk [("T", "d")] [("T", "a")]) [⟨"a"⟩] 1 300
    [⟨"T", "d", [⟨"a"⟩], [("pval", 0)]⟩] rfl

/-- C8: with the store, input and size bound fixed, raising `pval_cutoff`
never removes a term: everything returned at a cutoff is returned at any
higher cutoff. -/
theorem c8_cutoff_monotone (sf : Nat → Nat → Nat → Nat → ℚ)
    (resolve : String → Option Locus) (db : OntologyDB) (ll : List Locus)
    (c1 c2 : ℚ) (mts : ℤ) (r1 r2 : List Term) (hc : c1 ≤ c2)
    (h1 : enrichment sf resolve db ll c1 mts = .ok r1)
    (h2 : enrichment sf resolve db ll c2 mts = .ok r2) :
    ∀ t ∈ r1, t ∈ r2 := by
  unfold enrichment at h1 h2
  split at h1
  · cases h1
  · rename_i ts hts
    split at h2
    · rename_i e hte
      rw [hts] at hte
      cases hte
    · rename_i ts2 hts2
      rw [hts] at hts2
      cases hts2
      cases h1
      cases h2
      intro t ht
      obtain ⟨term, hterm, hsome⟩ := List.mem_filterMap.mp ht
      exact List.mem_filterMap.mpr ⟨term, hterm, testTerm_mono hc hsome⟩

/-- Witness for C8 at a concrete store and cutoffs zero and one: the term
returned at the lower cutoff is returned at the higher one. -/
theorem c8_cutoff_monotone_witness :
    ((0 : ℚ) ≤ 1) ∧
    enrichment (fun _ _ _ _ => 0) (fun s => some (Locus.mk s))
        (OntologyDB.mk [("T", "d")] [("T", "a")]) [⟨"a"⟩] 0 300 =
      .ok [⟨"T", "d", [⟨"a"⟩], [("pval", 0)]⟩] ∧
    enrichment (fun _ _ _ _ => 0) (fun s => some (Locus.mk s))
        (OntologyDB.mk [("T", "d")] [("T", "a")]) [⟨"a"⟩] 1 300 =
      .ok [⟨"T", "d", [⟨"a"⟩], [("pval", 0)]⟩] ∧
    (∀ t ∈ [(⟨"T", "d", [⟨"a"⟩], [("pval", 0)]⟩ : Term)],
      t ∈ [(⟨"T", "d", [⟨"a"⟩], [("pval", 0)]⟩ : Term)]) := by
  refine ⟨by norm_num, rfl, rfl, ?_⟩
  exact c8_cutoff_monotone (fun _ _ _ _ => 0) (fun s => some (Locus.mk s))
    (OntologyDB.mk [("T", "d")] [("T", "a")]) [⟨"a"⟩] 0 1 300
    [⟨"T", "d", [⟨"a"⟩], [("pval", 0)]⟩] [⟨"T", "d", [⟨"a"⟩], [("pval", 0)]⟩]
    (by norm_num) rfl rfl

/-- C9: in the argument bundle passed to the survival function, `num_common`
is the cardinality of the intersection of the membership set with the input
viewed as a set — unchanged by duplicate input entries — while `num_sampled`
is the raw input length, duplicates included. -/
theorem c9_common_and_sampled (db : OntologyDB) (tg : Finset Locus) (ll : List Locus) :
    (hypergeomArgs db tg ll).num_common = (tg ∩ ll.toFinset).card ∧
    (hypergeomArgs db tg ll).num_common = (hypergeomArgs db tg ll.dedup).num_common ∧
    (hypergeomArgs db tg ll).num_sampled = ll.length := by
  have key : ∀ l : List Locus,
      ((l.filter (fun x => decide (x ∈ tg))).dedup).length = (tg ∩ l.toFinset).card := by
    intro l
    rw [← List.card_toFinset, List.toFinset_filter]
    congr 1
    ext x
    simp [and_comm]
  refine ⟨key ll, ?_, rfl⟩
  show ((ll.filter (fun x => decide (x ∈ tg))).dedup).length =
    ((ll.dedup.filter (fun x => decide (x ∈ tg))).dedup).length
  rw [key ll, key ll.dedup]
  congr 1
  ext x
  simp [List.mem_dedup]

/-- C10 as stated is violated: `enrichment` performs no validation of its
parameters, so a call with a negative `pval_cutoff` returns normally (here the
empty result) instead of failing with `configurationError`. -/
theorem c10_no_validation_counterexample :
    ((-1 : ℚ) ≤ 0 ∨ (300 : ℤ) ≤ 0) ∧
    enrichment (fun _ _ _ _ => 0) (fun _ => none) (OntologyDB.mk [] []) [⟨"a"⟩] (-1) 300 =
      .ok [] ∧
    enrichment (fun _ _ _ _ => 0) (fun _ => none) (OntologyDB.mk [] []) [⟨"a"⟩] (-1) 300 ≠
      .error .configurationError := by
  have hEval : enrichment (fun _ _ _ _ => 0) (fun _ => none) (OntologyDB.mk [] [])
      [⟨"a"⟩] (-1) 300 = .ok [] := rfl
  refine ⟨Or.inl (by norm_num), hEval, ?_⟩
  rw [hEval]
  intro hfalse
  cases hfalse

/-- C10 amended: a call with nonpositive `pval_cutoff` or nonpositive
`max_term_size` does not fail with `configurationError` — `enrichment` never
raises that error; its only failure mode is a lookup failure while
materialising candidates. -/
theorem c10_no_validation_amended (sf : Nat → Nat → Nat → Nat → ℚ)
    (resolve : String → Option Locus) (db : OntologyDB) (ll : List Locus)
    (c : ℚ) (mts : ℤ) (_h : c ≤ 0 ∨ mts ≤ 0) :
    enrichment sf resolve db ll c mts ≠ .error .configurationError := by
  intro hc
  unfold enrichment at hc
  split at hc
  · rename_i e he
    cases hc
    exact absurd (getTerms_error he) (by decide)
  · cases hc

/-- Witness for the amended C10 at a concrete nonpositive cutoff. -/
theorem c10_no_validation_witness :
    ((-2 : ℚ) ≤ 0 ∨ (300 : ℤ) ≤ 0) ∧
    enrichment (fun _ _ _ _ => 0) (fun _ => none) (OntologyDB.mk [] []) [] (-2) 300 ≠
      .error .configurationError := by
  refine ⟨Or.inl (by norm_num), ?_⟩
  exact c10_no_validation_amended (fun _ _ _ _ => 0) (fun _ => none) (OntologyDB.mk [] [])
    [] (-2) 300 (Or.inl (by norm_num))
